import Mathlib

/-!
Shallow embedding of the keyword-pipeline core of the blog_trend repository
(src/main.py and src/llm_client.py), together with theorems checking the
specification's claims against it.  Strings are modelled as Lean `String`s
(sequences of Unicode code points, as in Python); the ledger file is
modelled by its list of lines; the browser/LLM side effects are abstracted
by their returned values, exactly as the pipeline consumes them.
-/

namespace BlogTrend

/-- Python's whitespace test (the ASCII whitespace characters recognised by
`str.strip()` and `str.split()`). -/
def isSpc (c : Char) : Bool :=
  c == ' ' || c == '\t' || c == '\n' || c == '\r' || c == '\x0b' || c == '\x0c'

/-- Python's digit test for the `\d` character class (ASCII digits). -/
def isDig (c : Char) : Bool := c.isDigit

/-- Strip of leading whitespace followed by strip of trailing whitespace on
a character list. -/
def pyStripL (l : List Char) : List Char :=
  ((l.dropWhile isSpc).reverse.dropWhile isSpc).reverse

/-- Python `str.strip()`. -/
def pyStrip (s : String) : String := ⟨pyStripL s.toList⟩

/-- Python's substring test `needle in hay` (contiguous substring). -/
def substrB (needle hay : String) : Bool :=
  decide (needle.toList <:+: hay.toList)

/-- One step of Python `str.split()` (whitespace-delimited words), as a
fold from the right; the state is the word in progress and the finished
words. -/
def wordsStep (c : Char) (acc : List Char × List (List Char)) :
    List Char × List (List Char) :=
  if isSpc c then
    match acc.1 with
    | [] => ([], acc.2)
    | w => ([], w :: acc.2)
  else (c :: acc.1, acc.2)

/-- Python `str.split()` with no argument: the maximal runs of
non-whitespace characters. -/
def pyWords (l : List Char) : List (List Char) :=
  let p := l.foldr wordsStep ([], [])
  match p.1 with
  | [] => p.2
  | w => w :: p.2

/-- Joins words with single spaces (Python `' '.join(...)`). -/
def joinSpace : List (List Char) → List Char
  | [] => []
  | [w] => w
  | w :: ws => w ++ ' ' :: joinSpace ws

/-- Python `' '.join(s.split())`: collapse every whitespace run to a single
space and drop surrounding whitespace.  This is the normalisation the
dedup code calls `normalized`. -/
def collapse (s : String) : String := ⟨joinSpace (pyWords s.toList)⟩

/-- Python `s.replace(" ", "")`: remove every ASCII space character. -/
def stripSpaces (s : String) : String := ⟨s.toList.filter (fun c => c != ' ')⟩

/-- Python `str.lower()` on one character (ASCII case mapping; the only
characters the surrounding code keeps after lowering are ASCII or Korean,
so the exotic Unicode case mappings are irrelevant here). -/
def pyLowerC (c : Char) : Char :=
  if decide ('A' ≤ c) && decide (c ≤ 'Z') then Char.ofNat (c.toNat + 32) else c

/-- Python `str.lower()`. -/
def pyLower (s : String) : String := ⟨s.toList.map pyLowerC⟩

/-- The constant `FILTER_KEYWORDS` of src/main.py. -/
def FILTER_KEYWORDS : List String :=
  ["자살", "살해", "성폭행", "불법", "마약", "범죄",
   "성인", "도박", "음란", "포르노", "성매매",
   "주식 리딩방", "투자 사기", "선물 사기"]

/-- The constant `ANNUAL_KEYWORDS` of src/main.py. -/
def ANNUAL_KEYWORDS : List String :=
  ["건강보험", "연말정산", "종합소득세", "국민연금", "의료보험",
   "근로소득세", "퇴직금", "소득공제", "세금", "공제", "세액공제",
   "지급일", "납부일"]

/-- The function `is_annual_keyword` of src/main.py: the keyword contains
one of the annual marker terms. -/
def is_annual_keyword (keyword : String) : Bool :=
  ANNUAL_KEYWORDS.any (fun t => substrB t keyword)

/-- The function `is_related_stock_keyword` of src/main.py. -/
def is_related_stock_keyword (keyword : String) : Bool :=
  substrB "관련주" keyword

/-- The function `is_keyword_already_posted` of src/main.py.  The Python
sets are modelled as lists queried by membership. -/
def is_keyword_already_posted (keyword : String) (posted_today_set : List String)
    (annual_posted_set : Option (List String)) : Bool :=
  if annual_posted_set.isSome && is_annual_keyword keyword then
    if decide (keyword ∈ annual_posted_set.getD []) then true
    else if decide (collapse keyword ∈ annual_posted_set.getD []) then true
    else if (annual_posted_set.getD []).any
        (fun p => stripSpaces keyword == stripSpaces p) then true
    else false
  else
    if decide (keyword ∈ posted_today_set) then true
    else if decide (collapse keyword ∈ posted_today_set) then true
    else if posted_today_set.any (fun p => stripSpaces keyword == stripSpaces p) then true
    else false

/-- Split at the first occurrence of `sep`; `none` when `sep` does not
occur.  Models the successful and `IndexError` cases of Python
`s.split(sep, 1)[1]`. -/
def splitFirstAux (sep : Char) (acc : List Char) :
    List Char → Option (List Char × List Char)
  | [] => none
  | c :: rest => if c == sep then some (acc.reverse, rest) else splitFirstAux sep (c :: acc) rest

/-- Split a string at its first occurrence of `sep`. -/
def splitFirst (sep : Char) (s : String) : Option (String × String) :=
  (splitFirstAux sep [] s.toList).map (fun p => (⟨p.1⟩, ⟨p.2⟩))

/-- The function `load_annual_keywords_posted_this_year` of src/main.py,
with the log file's contents given as its list of lines: keeps the records
of the current year whose keyword is annual, adding the
whitespace-collapsed variant when it differs. -/
def load_annual_keywords_posted_this_year (lines : List String) (current_year : String) :
    List String :=
  lines.foldl (fun acc line =>
    let l := pyStrip line
    if current_year.toList.isPrefixOf l.toList then
      match splitFirst ',' l with
      | none => acc
      | some p =>
        let kw := pyStrip p.2
        if is_annual_keyword kw then
          let normalized := collapse kw
          if normalized != kw then acc ++ [kw, normalized] else acc ++ [kw]
        else acc
    else acc) []

/-- Matches the tail `\d{1,2}일` of `DATE_REGEX` at the head of the list
(greedy on the digits, with the regex backtracking), returning the matched
characters and the rest. -/
def matchDayAt : List Char → Option (List Char × List Char)
  | c1 :: c2 :: c3 :: rest =>
    if isDig c1 && isDig c2 && c3 == '일' then some ([c1, c2, c3], rest)
    else if isDig c1 && c2 == '일' then some ([c1, c2], c3 :: rest)
    else none
  | [c1, c2] => if isDig c1 && c2 == '일' then some ([c1, c2], []) else none
  | _ => none

/-- Matches the head `\d{1,2}월` of `DATE_REGEX` at the head of the list. -/
def matchMonthAt : List Char → Option (List Char × List Char)
  | c1 :: c2 :: c3 :: rest =>
    if isDig c1 && isDig c2 && c3 == '월' then some ([c1, c2, c3], rest)
    else if isDig c1 && c2 == '월' then some ([c1, c2], c3 :: rest)
    else none
  | [c1, c2] => if isDig c1 && c2 == '월' then some ([c1, c2], []) else none
  | _ => none

/-- Matches `DATE_REGEX = (\d{1,2})월\s*(\d{1,2})일` (src/main.py) at the
head of the list, returning the matched token and the rest. -/
def matchTokenAt (l : List Char) : Option (List Char × List Char) :=
  match matchMonthAt l with
  | none => none
  | some m =>
    let sp := m.2.takeWhile isSpc
    let rest2 := m.2.dropWhile isSpc
    match matchDayAt rest2 with
    | none => none
    | some d => some (m.1 ++ sp ++ d.1, d.2)

/-- Python `re.search(DATE_REGEX, s)`: the leftmost match. -/
def dateSearchL : List Char → Option (List Char)
  | [] => none
  | c :: rest =>
    match matchTokenAt (c :: rest) with
    | some t => some t.1
    | none => dateSearchL rest

/-- The matched `MM월 DD일` token of a keyword, when present. -/
def dateSearch (s : String) : Option String := (dateSearchL s.toList).map (fun t => ⟨t⟩)

/-- Python `str.replace(old, new)`: replace every non-overlapping
occurrence, scanning left to right.  The fuel bounds the recursion and is
instantiated with the string length, which suffices because `old` is
non-empty at every call site. -/
def pyReplaceAux (old new : List Char) : Nat → List Char → List Char
  | 0, l => l
  | _ + 1, [] => []
  | fuel + 1, c :: rest =>
    if old.isPrefixOf (c :: rest) then
      new ++ pyReplaceAux old new fuel ((c :: rest).drop old.length)
    else c :: pyReplaceAux old new fuel rest

/-- Python `s.replace(old, new)`. -/
def pyReplace (s old new : String) : String :=
  ⟨pyReplaceAux old.toList new.toList s.toList.length s.toList⟩

/-- Python `re.sub(DATE_REGEX, repl, s)`: replace every match, scanning
left to right.  The fuel is instantiated with the string length, which
suffices because every match consumes at least one character. -/
def reSubDateAux (repl : List Char) : Nat → List Char → List Char
  | 0, l => l
  | _ + 1, [] => []
  | fuel + 1, c :: rest =>
    match matchTokenAt (c :: rest) with
    | some t => repl ++ reSubDateAux repl fuel t.2
    | none => c :: reSubDateAux repl fuel rest

/-- Replace every `DATE_REGEX` match in `s` by `repl`. -/
def reSubDate (repl : String) (s : String) : String :=
  ⟨reSubDateAux repl.toList s.toList.length s.toList⟩

/-- The month and day of the run's KST date (the only fields the keyword
pipeline reads from the `date` object). -/
structure PyDate where
  month : Nat
  day : Nat

/-- The string `f"{today.month}월 {today.day}일"` of
`process_and_deduplicate_keywords`. -/
def todayStrMD (today : PyDate) : String :=
  toString today.month ++ "월 " ++ toString today.day ++ "일"

/-- The per-keyword body of `process_and_deduplicate_keywords`
(src/main.py): date-token replacement, date-appending for quiz keywords,
and the secondary repair pass for quiz keywords that contained a date
token. -/
def process_one (todayStr : String) (keyword : String) : String :=
  let m := dateSearch keyword
  let contains_quiz := substrB "퀴즈" keyword
  let processed :=
    match m with
    | some old => pyReplace keyword old todayStr
    | none => if contains_quiz then keyword ++ " " ++ todayStr else keyword
  if contains_quiz && m.isSome then
    let p := pyStrip (reSubDate todayStr keyword)
    if !substrB "퀴즈" p && substrB "퀴즈" keyword then p ++ " " ++ todayStr else p
  else processed

/-- Python's string order `a <= b`: code-point lexicographic comparison. -/
def strLeProp (a b : String) : Prop := a.toList ≤ b.toList

instance : DecidableRel strLeProp :=
  fun a b => inferInstanceAs (Decidable (a.toList ≤ b.toList))

instance : IsTotal String strLeProp := ⟨fun a b => le_total a.toList b.toList⟩

instance : IsTrans String strLeProp := ⟨fun _ _ _ h1 h2 => le_trans h1 h2⟩

/-- Python's ascending sort of a string list (`list.sort()`), code-point
lexicographic.  The sorted list is used only after exact deduplication, so
any sorting algorithm yields Python's (unique) sorted result. -/
def sortStrings (l : List String) : List String :=
  List.insertionSort strLeProp l

/-- The function `process_and_deduplicate_keywords` of src/main.py:
blocklist filter, per-keyword date processing, exact deduplication
(`list(set(...))`), ascending sort. -/
def process_and_deduplicate_keywords (raw_keywords : List String) (today : PyDate) :
    List String :=
  let todayStr := todayStrMD today
  let kept := raw_keywords.filter (fun kw => !FILTER_KEYWORDS.any (fun w => substrB w kw))
  let processed := kept.map (process_one todayStr)
  sortStrings processed.dedup

/-- Python's `\w` test of the inner `normalize_keyword` (ASCII
alphanumerics, the underscore, and Korean syllables; the repository's
keywords contain no other letters). -/
def isWordChar (c : Char) : Bool :=
  c.isAlpha || c.isDigit || c == '_' || (decide ('가' ≤ c) && decide (c ≤ '힣'))

/-- The inner `normalize_keyword` of `group_similar_keywords`
(src/main.py): remove ASCII spaces, then drop the characters matched by
`[^\w\s]`. -/
def normalize_keyword (kw : String) : String :=
  ⟨(stripSpaces kw).toList.filter (fun c => isWordChar c || isSpc c)⟩

/-- The group-matching test of `group_similar_keywords`: substring
containment between the two normalised forms, or at least two shared
distinct characters when both normalised forms have length at least 3. -/
def kwMatch (normalized group_normalized : List Char) : Bool :=
  decide (normalized <:+: group_normalized) || decide (group_normalized <:+: normalized) ||
  (decide (2 ≤ (normalized.dedup.filter (fun c => group_normalized.contains c)).length) &&
   decide (3 ≤ normalized.length) && decide (3 ≤ group_normalized.length))

/-- Insert one keyword into the ordered group list (the dict
`keyword_groups` of src/main.py, in insertion order): the keyword is
appended to the first group whose key matches, else it opens a new group
at the end. -/
def addToGroups : List (String × List String) → String → List (String × List String)
  | [], kw => [(kw, [kw])]
  | g :: gs, kw =>
    if kwMatch (normalize_keyword kw).toList (normalize_keyword g.1).toList then
      (g.1, g.2 ++ [kw]) :: gs
    else g :: addToGroups gs kw

/-- The grouping loop of `group_similar_keywords`. -/
def buildGroups (keywords : List String) : List (String × List String) :=
  keywords.foldl addToGroups []

/-- Python `max(group, key=len)`: the first member of maximal length. -/
def maxByLen : List String → String
  | [] => ""
  | [x] => x
  | x :: y :: rest =>
    let m := maxByLen (y :: rest)
    if x.length < m.length then m else x

/-- The function `group_similar_keywords` of src/main.py: build the groups
and keep one representative (the longest member) per group. -/
def group_similar_keywords (keywords : List String) : List String :=
  if keywords.isEmpty then []
  else (buildGroups keywords).map (fun g => maxByLen g.2)

/-- The list `politics_keywords` of `determine_target_length`. -/
def politics_keywords : List String :=
  ["대통령", "후보", "이재명", "윤석열", "정부", "대선", "총선", "선거",
   "윤심", "국민의힘", "더불어민주당", "의원", "대통령실", "청와대", "국회",
   "관련주", "홍준표", "대변인", "정치", "장관"]

/-- The list `financial_keywords` of `determine_target_length`. -/
def financial_keywords : List String :=
  ["주식", "투자", "금융", "금리", "은행", "배당금", "코스피", "코스닥",
   "채권", "펀드", "자산", "부동산", "청년내일저축", "파킹통장", "계좌",
   "돈나무", "입출금", "kb", "하나", "신한", "삼성전자", "증권", "보험"]

/-- The list `quiz_keywords` of `determine_target_length`. -/
def quiz_keywords : List String :=
  ["퀴즈", "이벤트", "정답", "맞추기", "축구퀴즈", "비트버니"]

/-- The list `policy_keywords` of `determine_target_length`. -/
def policy_keywords : List String :=
  ["정책", "지원", "연말정산", "신청", "세금", "공제", "제도",
   "지급일", "실업급여", "국민연금", "건강보험", "지원금", "복지"]

/-- Python `any(word in keyword for word in terms)`. -/
def containsAny (terms : List String) (keyword : String) : Bool :=
  terms.any (fun w => substrB w keyword)

/-- The function `determine_target_length` of src/main.py. -/
def determine_target_length (keyword : String) : Nat :=
  if containsAny quiz_keywords keyword then 300
  else if containsAny policy_keywords keyword then 500
  else if containsAny politics_keywords keyword then 500
  else if containsAny financial_keywords keyword then 450
  else 400

/-- The well-formedness test of `clean_log_file`: the stripped line matches
`^\d{4}-\d{2}-\d{2},` and contains a comma. -/
def datePrefixB : List Char → Bool
  | y1 :: y2 :: y3 :: y4 :: s1 :: m1 :: m2 :: s2 :: d1 :: d2 :: c0 :: _ =>
    isDig y1 && isDig y2 && isDig y3 && isDig y4 && s1 == '-' &&
    isDig m1 && isDig m2 && s2 == '-' && isDig d1 && isDig d2 && c0 == ','
  | _ => false

/-- A ledger line is well-formed when it matches the date-prefixed record
format. -/
def wellFormedLine (line : String) : Bool :=
  datePrefixB line.toList && substrB "," line

/-- The record-filtering step of `clean_log_file`: strip each line and keep
the well-formed ones. -/
def cleanLines (lines : List String) : List String :=
  (lines.map pyStrip).filter wellFormedLine

/-- The file-system state touched by `clean_log_file`: the log file and its
`.bak` backup, each `none` when absent, else the list of lines. -/
structure LedgerFs where
  log : Option (List String)
  bak : Option (List String)

/-- The function `clean_log_file` of src/main.py as a state transformer.
`write_fails` models an exception in the rewrite step, after which the code
copies the backup over the log file. -/
def clean_log_file (write_fails : Bool) (s : LedgerFs) : LedgerFs :=
  match s.log with
  | none => s
  | some lines =>
    if write_fails then { log := some lines, bak := some lines }
    else { log := some (cleanLines lines), bak := some lines }

/-- The annual pre-filter of `run_trend_blogger` (src/main.py): drop an
annual keyword when some already-posted annual keyword occurs in it as a
substring. -/
def preFilterDrops (annual_posted : List String) (kw : String) : Bool :=
  is_annual_keyword kw && annual_posted.any (fun annual => substrB annual kw)

/-- The final filtering pass of `run_trend_blogger` (src/main.py): drop an
annual keyword on an exact lower-cased stripped match, or on lower-cased
substring containment, of a posted annual keyword. -/
def finalFilterDrops (annual_posted : List String) (kw : String) : Bool :=
  (is_annual_keyword kw &&
    annual_posted.any (fun annual => pyStrip (pyLower kw) == pyStrip (pyLower annual))) ||
  (is_annual_keyword kw &&
    annual_posted.any (fun annual => substrB (pyLower annual) (pyLower kw)))

/-- The in-loop skip decision and in-memory set updates of the keyword loop
of `run_trend_blogger` (src/main.py), assuming content generation and
publishing succeed: returns the keywords that reach the posting stage. -/
def loopSurvivors : List String → List String → List String → List String
  | _, _, [] => []
  | posted_today, annual_posted, kw :: rest =>
    if is_keyword_already_posted kw posted_today (some annual_posted) &&
        !is_related_stock_keyword kw then
      loopSurvivors posted_today annual_posted rest
    else
      kw :: loopSurvivors (posted_today ++ [kw])
        (if is_annual_keyword kw then annual_posted ++ [kw] else annual_posted) rest

/-- The keyword-list part of `run_trend_blogger` (src/main.py): annual
pre-filter, date processing and deduplication, similarity grouping,
seasonal reordering, final annual filter, and the in-loop skip decision;
returns the keywords that reach the posting stage. -/
def pipelineWorkList (raw : List String) (today : PyDate)
    (posted_today annual_posted : List String) (is_early_in_year : Bool) : List String :=
  let filtered_raw := raw.filter (fun kw => !preFilterDrops annual_posted kw)
  let processed := process_and_deduplicate_keywords filtered_raw today
  let grouped := group_similar_keywords processed
  let reordered :=
    if is_early_in_year then
      grouped.filter (fun k => is_annual_keyword k) ++
      grouped.filter (fun k => !is_annual_keyword k)
    else grouped
  let final_keywords := reordered.filter (fun kw => !finalFilterDrops annual_posted kw)
  loopSurvivors posted_today annual_posted final_keywords

/-- Abstract outcome of the external calls made while the loop of
`run_trend_blogger` processes one keyword: content generation returning
nothing, publishing returning failure, success, or an exception raised
during that keyword's processing (for example the re-raise of
`log_posted_keyword` after its retries are exhausted). -/
inductive Outcome where
  | contentFail
  | publishFail
  | ok
  | raisesExn
deriving DecidableEq

/-- Control flow of the keyword loop of `run_trend_blogger` (src/main.py)
given each keyword's outcome.  Content-generation failure and publish
failure are handled inside the loop body and the loop continues; success
appends a ledger record; an exception propagates to the handler outside
the loop, ending it.  Returns the keywords whose processing started, the
ledger appends, and whether the loop ended by exception. -/
def keywordLoopRun (outcome : String → Outcome) :
    List String → List String × List String × Bool
  | [] => ([], [], false)
  | kw :: rest =>
    match outcome kw with
    | .raisesExn => ([kw], [], true)
    | .contentFail =>
      let r := keywordLoopRun outcome rest
      (kw :: r.1, r.2.1, r.2.2)
    | .publishFail =>
      let r := keywordLoopRun outcome rest
      (kw :: r.1, r.2.1, r.2.2)
    | .ok =>
      let r := keywordLoopRun outcome rest
      (kw :: r.1, kw :: r.2.1, r.2.2)

/-- The tag alphabet kept by `re.sub(r'[^가-힣a-z0-9]', '', tag)` in
src/llm_client.py: Korean syllables, ASCII lower-case letters, digits. -/
def isTagChar (c : Char) : Bool :=
  (decide ('가' ≤ c) && decide (c ≤ '힣')) || (decide ('a' ≤ c) && decide (c ≤ 'z')) ||
  (decide ('0' ≤ c) && decide (c ≤ '9'))

/-- The tag normalization applied to each candidate in
`generate_tags_from_content` (src/llm_client.py): `tag.strip().lower()`,
drop the characters outside the tag alphabet, then remove spaces. -/
def normalizeTag (tag : String) : String :=
  let t1 := pyLower (pyStrip tag)
  let t2 : String := ⟨t1.toList.filter isTagChar⟩
  ⟨t2.toList.filter (fun c => c != ' ')⟩

/-- The tag-selection step of `run_trend_blogger` (src/main.py): fall back
to the single tag `keyword.replace(" ", "")` when tag generation returned
no tags. -/
def choose_tags (keyword : String) (generated_tags : List String) : List String :=
  if generated_tags.isEmpty then [stripSpaces keyword] else generated_tags

/-- The three dedup comparisons the spec describes for the already-posted
check, as membership against a posted set: exact membership,
whitespace-collapsed membership, and space-stripped equality with some
member. -/
def matchesThreeWays (keyword : String) (s : List String) : Prop :=
  keyword ∈ s ∨ collapse keyword ∈ s ∨ ∃ p ∈ s, stripSpaces keyword = stripSpaces p

instance (keyword : String) (s : List String) : Decidable (matchesThreeWays keyword s) :=
  inferInstanceAs
    (Decidable (keyword ∈ s ∨ collapse keyword ∈ s ∨ ∃ p ∈ s, stripSpaces keyword = stripSpaces p))

/-- The list has no leading character satisfying `p` (used to reason about
the strip functions). -/
def noLead (p : Char → Bool) : List Char → Prop
  | [] => True
  | c :: _ => p c = false

/-- Strip of trailing whitespace only. -/
def trailStrip (l : List Char) : List Char := (l.reverse.dropWhile isSpc).reverse

/-- All keywords collected over a group list. -/
def groupsJoin (gs : List (String × List String)) : List String :=
  (gs.map Prod.snd).flatten

theorem dropWhile_all_not {p : Char → Bool} {l : List Char}
    (h : ∀ c ∈ l, p c = false) : l.dropWhile p = l := by
  cases l with
  | nil => rfl
  | cons c t => simp [List.dropWhile_cons, h c (List.mem_cons_self c t)]

theorem noLead_dropWhile (p : Char → Bool) (l : List Char) : noLead p (l.dropWhile p) := by
  induction l with
  | nil => trivial
  | cons c t ih =>
    cases hpc : p c with
    | true => simpa [List.dropWhile_cons, hpc] using ih
    | false => simp [List.dropWhile_cons, hpc, noLead]

theorem noLead_dropWhile_eq {p : Char → Bool} {l : List Char} (h : noLead p l) :
    l.dropWhile p = l := by
  cases l with
  | nil => rfl
  | cons c t =>
    rw [noLead] at h
    simp [List.dropWhile_cons, h]

theorem noLead_of_prefix {p : Char → Bool} {s l : List Char} (hp : s <+: l)
    (h : noLead p l) : noLead p s := by
  cases s with
  | nil => trivial
  | cons c t =>
    obtain ⟨r, hr⟩ := hp
    cases l with
    | nil => simp at hr
    | cons c2 t2 =>
      rw [List.cons_append] at hr
      injection hr with h1 _
      rw [noLead, h1]
      exact h

theorem trailStrip_pre (l : List Char) : trailStrip l <+: l := by
  have h := List.dropWhile_suffix (l := l.reverse) isSpc
  rw [trailStrip]
  conv_rhs => rw [← List.reverse_reverse l]
  exact List.reverse_prefix.mpr h

theorem noLead_trailStrip {l : List Char} (h : noLead isSpc l) :
    noLead isSpc (trailStrip l) :=
  noLead_of_prefix (trailStrip_pre l) h

theorem trailStrip_idem (l : List Char) : trailStrip (trailStrip l) = trailStrip l := by
  have h1 : (trailStrip l).reverse = l.reverse.dropWhile isSpc := by
    rw [trailStrip, List.reverse_reverse]
  calc trailStrip (trailStrip l)
      = ((trailStrip l).reverse.dropWhile isSpc).reverse := rfl
    _ = ((l.reverse.dropWhile isSpc).dropWhile isSpc).reverse := by rw [h1]
    _ = (l.reverse.dropWhile isSpc).reverse := by
          rw [noLead_dropWhile_eq (noLead_dropWhile isSpc l.reverse)]
    _ = trailStrip l := rfl

theorem pyStripL_eq_trailStrip (l : List Char) :
    pyStripL l = trailStrip (l.dropWhile isSpc) := rfl

theorem pyStripL_idem (l : List Char) : pyStripL (pyStripL l) = pyStripL l := by
  have h1 : noLead isSpc (pyStripL l) :=
    noLead_trailStrip (noLead_dropWhile isSpc l)
  rw [pyStripL_eq_trailStrip (pyStripL l), noLead_dropWhile_eq h1,
    pyStripL_eq_trailStrip l, trailStrip_idem]

theorem pyStripL_all_not {l : List Char} (h : ∀ c ∈ l, isSpc c = false) :
    pyStripL l = l := by
  rw [pyStripL, dropWhile_all_not h,
    dropWhile_all_not (fun c hc => h c (List.mem_reverse.mp hc)), List.reverse_reverse]

theorem pyStrip_idem (s : String) : pyStrip (pyStrip s) = pyStrip s := by
  show (⟨pyStripL (pyStripL s.toList)⟩ : String) = ⟨pyStripL s.toList⟩
  rw [pyStripL_idem]

theorem posted_chain_iff (kw : String) (s : List String) :
    (if decide (kw ∈ s) then true
     else if decide (collapse kw ∈ s) then true
     else if s.any (fun p => stripSpaces kw == stripSpaces p) then true
     else false) = true ↔ matchesThreeWays kw s := by
  rw [matchesThreeWays]
  split_ifs with h1 h2 h3
  · simp_all
  · simp_all
  · simp_all [List.any_eq_true]
  · simp_all [List.any_eq_true]

theorem already_posted_annual_iff (kw : String) (pt aset : List String)
    (h : is_annual_keyword kw = true) :
    is_keyword_already_posted kw pt (some aset) = true ↔ matchesThreeWays kw aset := by
  rw [is_keyword_already_posted]
  simp only [Option.isSome_some, h, Bool.and_self, if_true, Option.getD_some]
  exact posted_chain_iff kw aset

theorem already_posted_not_annual_iff (kw : String) (pt : List String)
    (aset : Option (List String)) (h : is_annual_keyword kw = false) :
    is_keyword_already_posted kw pt aset = true ↔ matchesThreeWays kw pt := by
  rw [is_keyword_already_posted]
  simp only [h, Bool.and_false, Bool.false_eq_true, if_false]
  exact posted_chain_iff kw pt

/-- C1: for an annual keyword with an annual-posted set supplied,
`is_keyword_already_posted` is true exactly on an exact, whitespace-collapsed,
or space-stripped match against the annual set, and the today-posted set is
not consulted (the result is the same for every today-posted set); for a
non-annual keyword it is true exactly on the same three checks against the
today-posted set.  Since `load_annual_keywords_posted_this_year` keeps only
records whose line starts with the current year, the annual keyword of a
2024 record is reported posted in a 2024 run and not posted in a 2025 run. -/
theorem C1_already_posted_check :
    (∀ kw pt aset, is_annual_keyword kw = true →
        (is_keyword_already_posted kw pt (some aset) = true ↔ matchesThreeWays kw aset)) ∧
    (∀ kw pt aset, is_annual_keyword kw = false →
        (is_keyword_already_posted kw pt (some aset) = true ↔ matchesThreeWays kw pt)) ∧
    (∀ pt, is_keyword_already_posted "연말정산" pt
        (some (load_annual_keywords_posted_this_year ["2024-01-10,연말정산"] "2024")) = true) ∧
    (∀ pt, is_keyword_already_posted "연말정산" pt
        (some (load_annual_keywords_posted_this_year ["2024-01-10,연말정산"] "2025")) = false) := by
  refine ⟨fun kw pt aset h => already_posted_annual_iff kw pt aset h,
          fun kw pt aset h => already_posted_not_annual_iff kw pt (some aset) h,
          fun pt => ?_, fun pt => ?_⟩
  · exact (already_posted_annual_iff _ pt _ (by decide)).mpr (by decide)
  · cases hb : is_keyword_already_posted "연말정산" pt
        (some (load_annual_keywords_posted_this_year ["2024-01-10,연말정산"] "2025")) with
    | false => rfl
    | true => exact absurd ((already_posted_annual_iff _ pt _ (by decide)).mp hb) (by decide)

theorem C1_witness :
    is_annual_keyword "세금" = true ∧
    (is_keyword_already_posted "세금" [] (some ["세금"]) = true ↔
      matchesThreeWays "세금" ["세금"]) :=
  ⟨by decide, C1_already_posted_check.1 "세금" [] ["세금"] (by decide)⟩

theorem substrB_self (s : String) : substrB s s = true := by
  simp [substrB]

/-- C2 counterexample: the stock-related annual keyword `"세금 관련주"`
matches the loaded annual-this-year set under the space-stripped comparison
(so `is_keyword_already_posted` reports it posted), yet the pipeline does
not skip it — it reaches the posting stage — contradicting the claim that
such a keyword is still skipped. -/
theorem C2_counterexample :
    is_related_stock_keyword "세금 관련주" = true ∧
    is_annual_keyword "세금 관련주" = true ∧
    "세금관련주" ∈ load_annual_keywords_posted_this_year ["2025-01-01,세금관련주"] "2025" ∧
    stripSpaces "세금 관련주" = stripSpaces "세금관련주" ∧
    is_keyword_already_posted "세금 관련주" []
      (some (load_annual_keywords_posted_this_year ["2025-01-01,세금관련주"] "2025")) = true ∧
    pipelineWorkList ["세금 관련주"] ⟨4, 19⟩ []
      (load_annual_keywords_posted_this_year ["2025-01-01,세금관련주"] "2025") false
      = ["세금 관련주"] := by
  exact ⟨by decide, by decide, by decide, by decide, by decide, by decide⟩

/-- C2 amended: a stock-related keyword is never skipped by the keyword
loop's already-posted check at all — neither for a same-day match nor for an
annual-set match (exact, whitespace-collapsed, or space-stripped); the
substring-based annual pre-filter still applies to it, so a stock-related
annual keyword that contains a posted annual keyword (in particular an
exact match) is still dropped before the loop, but one matching the annual
set only under the whitespace-collapsed or space-stripped comparison is
posted again. -/
theorem C2_amended_stock_dedup_exemption :
    (∀ pt ap kw rest, is_related_stock_keyword kw = true →
        loopSurvivors pt ap (kw :: rest) =
          kw :: loopSurvivors (pt ++ [kw])
            (if is_annual_keyword kw then ap ++ [kw] else ap) rest) ∧
    (∀ ap kw, is_annual_keyword kw = true → kw ∈ ap → preFilterDrops ap kw = true) ∧
    (∀ ap kw a, is_annual_keyword kw = true → a ∈ ap → substrB a kw = true →
        preFilterDrops ap kw = true) := by
  refine ⟨fun pt ap kw rest h => ?_, fun ap kw h1 h2 => ?_, fun ap kw a h1 h2 h3 => ?_⟩
  · rw [loopSurvivors, h]
    simp
  · rw [preFilterDrops, h1, Bool.true_and, List.any_eq_true]
    exact ⟨kw, h2, substrB_self kw⟩
  · rw [preFilterDrops, h1, Bool.true_and, List.any_eq_true]
    exact ⟨a, h2, h3⟩

theorem C2_amended_witness :
    is_related_stock_keyword "관련주" = true ∧
    loopSurvivors ["관련주"] [] ["관련주"] =
      "관련주" :: loopSurvivors (["관련주"] ++ ["관련주"])
        (if is_annual_keyword "관련주" then [] ++ ["관련주"] else []) [] :=
  ⟨by decide, C2_amended_stock_dedup_exemption.1 ["관련주"] [] "관련주" [] (by decide)⟩

/-- C3 counterexample: a run of two keywords in which the first keyword's
processing raises an unexpected exception; the loop ends there and the
second keyword is never processed, contradicting the claim that the
remaining keywords are still processed. -/
theorem C3_counterexample :
    keywordLoopRun (fun kw => if kw == "키워드A" then Outcome.raisesExn else Outcome.ok)
        ["키워드A", "키워드B"] = (["키워드A"], [], true) ∧
    "키워드B" ∉ (keywordLoopRun (fun kw => if kw == "키워드A" then Outcome.raisesExn else Outcome.ok)
        ["키워드A", "키워드B"]).1 := by
  exact ⟨by rfl, by decide⟩

/-- C3 amended: the handled per-keyword failures (content generation
returning nothing, publishing returning failure) and successes let the loop
process every keyword of the work list; but an unexpected exception during
one keyword's processing ends the loop at that keyword — it is caught by
the run-level handler outside the loop, so the keywords after it are not
processed. -/
theorem C3_amended_exception_aborts_loop :
    (∀ f kws, (∀ kw ∈ kws, f kw ≠ Outcome.raisesExn) →
        (keywordLoopRun f kws).1 = kws) ∧
    (∀ f pre kw post, (∀ k ∈ pre, f k ≠ Outcome.raisesExn) → f kw = Outcome.raisesExn →
        (keywordLoopRun f (pre ++ kw :: post)).1 = pre ++ [kw] ∧
        (keywordLoopRun f (pre ++ kw :: post)).2.2 = true) := by
  constructor
  · intro f kws
    induction kws with
    | nil => intro _; rfl
    | cons k t ih =>
      intro h
      have hk := h k (List.mem_cons_self k t)
      have ht := ih (fun kw hkw => h kw (List.mem_cons_of_mem k hkw))
      cases hfk : f k with
      | raisesExn => exact absurd hfk hk
      | contentFail => simp [keywordLoopRun, hfk, ht]
      | publishFail => simp [keywordLoopRun, hfk, ht]
      | ok => simp [keywordLoopRun, hfk, ht]
  · intro f pre kw post
    induction pre with
    | nil =>
      intro _ hkw
      constructor <;> simp [keywordLoopRun, hkw]
    | cons p t ih =>
      intro h hkw
      have hp := h p (List.mem_cons_self p t)
      have ht := ih (fun k hk => h k (List.mem_cons_of_mem p hk)) hkw
      cases hfp : f p with
      | raisesExn => exact absurd hfp hp
      | contentFail => constructor <;> simp [keywordLoopRun, hfp, ht.1, ht.2]
      | publishFail => constructor <;> simp [keywordLoopRun, hfp, ht.1, ht.2]
      | ok => constructor <;> simp [keywordLoopRun, hfp, ht.1, ht.2]

/-- C4 counterexample: the quiz keyword `" 3월 1일 퀴즈"` contains a date
token and a leading space; the claim says every character outside the token
is unchanged (including leading whitespace), predicting `" 4월 19일 퀴즈"`,
but the code's quiz branch applies `re.sub(...).strip()` and returns
`"4월 19일 퀴즈"` with the leading space removed. -/
theorem C4_counterexample :
    dateSearch " 3월 1일 퀴즈" = some "3월 1일" ∧
    substrB "퀴즈" " 3월 1일 퀴즈" = true ∧
    process_one (todayStrMD ⟨4, 19⟩) " 3월 1일 퀴즈" = "4월 19일 퀴즈" ∧
    "4월 19일 퀴즈" ≠ " 4월 19일 퀴즈" := by
  exact ⟨by rfl, by decide, by rfl, by decide⟩

/-- C4 amended: for a keyword with no date token that contains the quiz
marker, the result is the keyword, a single space, and today's date token;
for a non-quiz keyword with a date token, every occurrence of the
first-matched token's text is replaced by today's token (the rest is
unchanged); for a quiz keyword with a date token, every date-shaped token
is replaced and the result is stripped of leading and trailing whitespace
(re-appending the date token if the quiz marker were lost); the spec's own
examples hold. -/
theorem C4_amended_date_normalization :
    (∀ today kw, dateSearch kw = none → substrB "퀴즈" kw = true →
        process_one (todayStrMD today) kw = kw ++ " " ++ todayStrMD today) ∧
    (∀ today kw tok, dateSearch kw = some tok → substrB "퀴즈" kw = false →
        process_one (todayStrMD today) kw = pyReplace kw tok (todayStrMD today)) ∧
    (∀ today kw tok, dateSearch kw = some tok → substrB "퀴즈" kw = true →
        process_one (todayStrMD today) kw =
          (if substrB "퀴즈" (pyStrip (reSubDate (todayStrMD today) kw)) then
            pyStrip (reSubDate (todayStrMD today) kw)
          else pyStrip (reSubDate (todayStrMD today) kw) ++ " " ++ todayStrMD today)) ∧
    process_one (todayStrMD ⟨4, 19⟩) "3월 10일 퀴즈" = "4월 19일 퀴즈" ∧
    process_one (todayStrMD ⟨4, 19⟩) "오늘의퀴즈" = "오늘의퀴즈 4월 19일" := by
  refine ⟨fun today kw h1 h2 => ?_, fun today kw tok h1 h2 => ?_,
          fun today kw tok h1 h2 => ?_, by rfl, by rfl⟩
  · simp [process_one, h1, h2]
  · simp [process_one, h1, h2]
  · cases hp : substrB "퀴즈" (pyStrip (reSubDate (todayStrMD today) kw)) <;>
      simp [process_one, h1, h2, hp]

theorem C4_amended_witness :
    process_one (todayStrMD ⟨4, 19⟩) "3월 10일 행사" =
      pyReplace "3월 10일 행사" "3월 10일" (todayStrMD ⟨4, 19⟩) :=
  C4_amended_date_normalization.2.1 ⟨4, 19⟩ "3월 10일 행사" "3월 10일" (by rfl) (by decide)

/-- C6: `determine_target_length` tests the five category lists in the
precedence order quiz/event (300), policy (500), politics (500), financial
(450), default (400) and returns the earliest match; in particular
`"연말정산 관련주"` matches both the policy and the politics lists and gets
the policy length 500, and a keyword matching no list gets 400. -/
theorem C6_determine_target_length_precedence :
    determine_target_length "연말정산 관련주" = 500 ∧
    containsAny policy_keywords "연말정산 관련주" = true ∧
    containsAny politics_keywords "연말정산 관련주" = true ∧
    containsAny quiz_keywords "연말정산 관련주" = false ∧
    (∀ kw, containsAny quiz_keywords kw = true → determine_target_length kw = 300) ∧
    (∀ kw, containsAny quiz_keywords kw = false → containsAny policy_keywords kw = true →
        determine_target_length kw = 500) ∧
    (∀ kw, containsAny quiz_keywords kw = false → containsAny policy_keywords kw = false →
        containsAny politics_keywords kw = true → determine_target_length kw = 500) ∧
    (∀ kw, containsAny quiz_keywords kw = false → containsAny policy_keywords kw = false →
        containsAny politics_keywords kw = false → containsAny financial_keywords kw = true →
        determine_target_length kw = 450) ∧
    (∀ kw, containsAny quiz_keywords kw = false → containsAny policy_keywords kw = false →
        containsAny politics_keywords kw = false → containsAny financial_keywords kw = false →
        determine_target_length kw = 400) := by
  refine ⟨by decide, by decide, by decide, by decide, ?_, ?_, ?_, ?_, ?_⟩ <;>
    (intro kw; intros; simp_all [determine_target_length])

theorem C6_witness :
    containsAny quiz_keywords "행운퀴즈" = true ∧ determine_target_length "행운퀴즈" = 300 :=
  ⟨by decide, C6_determine_target_length_precedence.2.2.2.2.1 "행운퀴즈" (by decide)⟩

/-- C9 counterexample: for the keyword `"AI 투자"` with failed tag
generation, the fallback tag is `"AI투자"` (spaces removed only), while the
tag normalization `normalizeTag` would give `"ai투자"` (lower-cased and
filtered); the claim that the fallback is the normalizeTag-sanitized
keyword is false. -/
theorem C9_counterexample :
    choose_tags "AI 투자" [] = ["AI투자"] ∧
    normalizeTag "AI 투자" = "ai투자" ∧
    choose_tags "AI 투자" [] ≠ [normalizeTag "AI 투자"] := by
  exact ⟨by rfl, by rfl, by decide⟩

/-- C9 amended: when tag generation returns an empty list, the post is
published with exactly one fallback tag, and that tag is the keyword with
its ASCII space characters removed — it is not lower-cased and characters
outside the tag alphabet are not removed. -/
theorem C9_amended_fallback_tag :
    ∀ kw tags, tags = ([] : List String) →
      choose_tags kw tags = [⟨kw.toList.filter (fun c => c != ' ')⟩] ∧
      (choose_tags kw tags).length = 1 := by
  intro kw tags h
  subst h
  exact ⟨rfl, rfl⟩

theorem C9_amended_witness :
    choose_tags "AI 투자!" [] = [⟨"AI 투자!".toList.filter (fun c => c != ' ')⟩] ∧
    (choose_tags "AI 투자!" []).length = 1 :=
  C9_amended_fallback_tag "AI 투자!" [] rfl

theorem mem_cleanLines (lines : List String) (l : String) :
    l ∈ cleanLines lines ↔ (∃ raw ∈ lines, pyStrip raw = l) ∧ wellFormedLine l = true := by
  rw [cleanLines]
  simp [List.mem_filter, List.mem_map]

theorem cleanLines_idem (lines : List String) :
    cleanLines (cleanLines lines) = cleanLines lines := by
  have hfix : ∀ x ∈ cleanLines lines, pyStrip x = id x := by
    intro x hx
    obtain ⟨⟨raw, _, hraw⟩, _⟩ := (mem_cleanLines lines x).mp hx
    rw [← hraw, pyStrip_idem]
    rfl
  have hwf : ∀ x ∈ cleanLines lines, wellFormedLine x = true :=
    fun x hx => ((mem_cleanLines lines x).mp hx).2
  calc cleanLines (cleanLines lines)
      = ((cleanLines lines).map pyStrip).filter wellFormedLine := rfl
    _ = (cleanLines lines).filter wellFormedLine := by
        rw [List.map_congr_left hfix, List.map_id]
    _ = cleanLines lines := List.filter_eq_self.mpr hwf

/-- C7: ledger compaction keeps exactly the stripped well-formed records
(date-prefixed `YYYY-MM-DD,` lines) and discards all others, is idempotent,
always records the untouched ledger as the backup, and on a rewrite failure
the log file holds the original lines again (restored from the backup), so
no well-formed record is lost on either path; the spec's
one-good-one-malformed example behaves as claimed. -/
theorem C7_clean_log_file_spec :
    (∀ lines b, (clean_log_file false { log := some lines, bak := b }).log =
        some (cleanLines lines)) ∧
    (∀ lines b w, (clean_log_file w { log := some lines, bak := b }).bak = some lines) ∧
    (∀ lines l, l ∈ cleanLines lines ↔
        (∃ raw ∈ lines, pyStrip raw = l) ∧ wellFormedLine l = true) ∧
    (∀ lines, cleanLines (cleanLines lines) = cleanLines lines) ∧
    (∀ lines b, (clean_log_file true { log := some lines, bak := b }).log = some lines) ∧
    (∀ lines l, l ∈ lines → wellFormedLine (pyStrip l) = true →
        pyStrip l ∈ cleanLines lines) ∧
    cleanLines ["2024-01-10,키워드", "키워드만 있는 줄"] = ["2024-01-10,키워드"] := by
  refine ⟨fun lines b => rfl, fun lines b w => ?_, mem_cleanLines, cleanLines_idem,
          fun lines b => rfl, fun lines l hl hwf => ?_, by decide⟩
  · cases w <;> rfl
  · exact (mem_cleanLines lines (pyStrip l)).mpr ⟨⟨l, hl, rfl⟩, hwf⟩

theorem C7_witness :
    pyStrip "  2024-01-10,키워드  " ∈ cleanLines ["  2024-01-10,키워드  "] :=
  C7_clean_log_file_spec.2.2.2.2.2.1 ["  2024-01-10,키워드  "] "  2024-01-10,키워드  "
    (by decide) (by decide)

theorem isTagChar_not_spc {c : Char} (h : isTagChar c = true) : isSpc c = false := by
  cases hs : isSpc c with
  | false => rfl
  | true =>
    exfalso
    rw [isSpc] at hs
    simp only [Bool.or_eq_true, beq_iff_eq] at hs
    rcases hs with ((((h1 | h1) | h1) | h1) | h1) | h1 <;> subst h1 <;>
      exact absurd h (by decide)

theorem isTagChar_ne_space {c : Char} (h : isTagChar c = true) : (c != ' ') = true := by
  have hne : c ≠ ' ' := by
    intro hc
    subst hc
    exact absurd h (by decide)
  simpa [bne_iff_ne] using hne

theorem isTagChar_lower_id {c : Char} (h : isTagChar c = true) : pyLowerC c = c := by
  rw [pyLowerC]
  by_cases hA : 'A' ≤ c
  · by_cases hZ : c ≤ 'Z'
    · exfalso
      rw [isTagChar] at h
      simp only [Bool.or_eq_true, Bool.and_eq_true, decide_eq_true_eq] at h
      rcases h with (⟨h1, _⟩ | ⟨h1, _⟩) | ⟨_, h2⟩
      · exact absurd (le_trans h1 hZ) (by decide)
      · exact absurd (le_trans h1 hZ) (by decide)
      · exact absurd (le_trans hA h2) (by decide)
    · simp [hZ]
  · simp [hA]

theorem normalizeTag_toList (x : String) :
    (normalizeTag x).toList =
      (((pyLower (pyStrip x)).toList.filter isTagChar).filter (fun c => c != ' ')) := rfl

theorem normalizeTag_all_tagChar (x : String) :
    ∀ c ∈ (normalizeTag x).toList, isTagChar c = true := by
  intro c hc
  rw [normalizeTag_toList] at hc
  exact (List.mem_filter.mp (List.mem_filter.mp hc).1).2

theorem normalizeTag_of_tagChars {s : String} (h : ∀ c ∈ s.toList, isTagChar c = true) :
    normalizeTag s = s := by
  have h1 : pyStrip s = s := by
    show (⟨pyStripL s.toList⟩ : String) = s
    rw [pyStripL_all_not (fun c hc => isTagChar_not_spc (h c hc))]
    rfl
  have h2 : pyLower s = s := by
    show (⟨s.toList.map pyLowerC⟩ : String) = s
    have hmap : s.toList.map pyLowerC = s.toList.map id :=
      List.map_congr_left (fun c hc => isTagChar_lower_id (h c hc))
    rw [hmap, List.map_id]
    rfl
  rw [normalizeTag, h1, h2]
  show (⟨(s.toList.filter isTagChar).filter (fun c => c != ' ')⟩ : String) = s
  rw [List.filter_eq_self.mpr h,
    List.filter_eq_self.mpr (fun c hc => isTagChar_ne_space (h c hc))]
  rfl

/-- C8: the tag normalization is idempotent, and every character of its
output is a Korean syllable, an ASCII lower-case letter, or a digit. -/
theorem C8_normalizeTag_idem_alphabet (x : String) :
    normalizeTag (normalizeTag x) = normalizeTag x ∧
    ∀ c ∈ (normalizeTag x).toList, isTagChar c = true :=
  ⟨normalizeTag_of_tagChars (normalizeTag_all_tagChar x), normalizeTag_all_tagChar x⟩

theorem C8_witness :
    normalizeTag (normalizeTag "Ab투자! ") = normalizeTag "Ab투자! " ∧ isTagChar 'a' = true :=
  ⟨(C8_normalizeTag_idem_alphabet "Ab투자! ").1,
   (C8_normalizeTag_idem_alphabet "Ab투자! ").2 'a' (by decide)⟩

theorem maxByLen_mem (l : List String) (h : l ≠ []) : maxByLen l ∈ l := by
  induction l with
  | nil => exact absurd rfl h
  | cons x t ih =>
    cases t with
    | nil => simp [maxByLen]
    | cons y rest =>
      show (if x.length < (maxByLen (y :: rest)).length then maxByLen (y :: rest) else x)
        ∈ x :: y :: rest
      by_cases hlt : x.length < (maxByLen (y :: rest)).length
      · rw [if_pos hlt]
        exact List.mem_cons_of_mem x (ih (by simp))
      · rw [if_neg hlt]
        exact List.mem_cons_self x (y :: rest)

theorem maxByLen_le (l : List String) : ∀ x ∈ l, x.length ≤ (maxByLen l).length := by
  induction l with
  | nil => intro x hx; exact absurd hx (List.not_mem_nil x)
  | cons a t ih =>
    cases t with
    | nil =>
      intro x hx
      rw [List.mem_singleton] at hx
      subst hx
      exact le_refl _
    | cons y rest =>
      intro x hx
      have hm : maxByLen (a :: y :: rest) =
          (if a.length < (maxByLen (y :: rest)).length then maxByLen (y :: rest) else a) := rfl
      rw [hm]
      rcases List.mem_cons.mp hx with hx1 | hx2
      · subst hx1
        by_cases hlt : x.length < (maxByLen (y :: rest)).length
        · rw [if_pos hlt]; exact le_of_lt hlt
        · rw [if_neg hlt]
      · by_cases hlt : a.length < (maxByLen (y :: rest)).length
        · rw [if_pos hlt]; exact ih x hx2
        · rw [if_neg hlt]
          exact le_trans (ih x hx2) (not_lt.mp hlt)

theorem maxByLen_first (l : List String) (h : l ≠ []) :
    ∃ pre post, l = pre ++ maxByLen l :: post ∧
      ∀ x ∈ pre, x.length < (maxByLen l).length := by
  induction l with
  | nil => exact absurd rfl h
  | cons a t ih =>
    cases t with
    | nil =>
      refine ⟨[], [], rfl, ?_⟩
      intro x hx
      exact absurd hx (List.not_mem_nil x)
    | cons y rest =>
      have hm : maxByLen (a :: y :: rest) =
          (if a.length < (maxByLen (y :: rest)).length then maxByLen (y :: rest) else a) := rfl
      by_cases hlt : a.length < (maxByLen (y :: rest)).length
      · obtain ⟨pre, post, heq, hpre⟩ := ih (by simp)
        refine ⟨a :: pre, post, ?_, ?_⟩
        · rw [hm, if_pos hlt, List.cons_append, ← heq]
        · intro x hx
          rw [hm, if_pos hlt]
          rcases List.mem_cons.mp hx with hx1 | hx2
          · subst hx1; exact hlt
          · exact hpre x hx2
      · refine ⟨[], y :: rest, ?_, ?_⟩
        · rw [hm, if_neg hlt, List.nil_append]
        · intro x hx
          exact absurd hx (List.not_mem_nil x)

theorem addToGroups_sndNe (gs : List (String × List String)) (kw : String) :
    (∀ g ∈ gs, g.2 ≠ []) → ∀ g ∈ addToGroups gs kw, g.2 ≠ [] := by
  induction gs with
  | nil =>
    intro _ g hg
    rw [addToGroups, List.mem_singleton] at hg
    subst hg
    simp
  | cons g0 gs ih =>
    intro h g hg
    rw [addToGroups] at hg
    by_cases hb : kwMatch (normalize_keyword kw).toList (normalize_keyword g0.1).toList = true
    · rw [if_pos hb] at hg
      rcases List.mem_cons.mp hg with hg1 | hg2
      · subst hg1; simp
      · exact h g (List.mem_cons_of_mem g0 hg2)
    · rw [if_neg hb] at hg
      rcases List.mem_cons.mp hg with hg1 | hg2
      · subst hg1; exact h g (List.mem_cons_self g gs)
      · exact ih (fun x hx => h x (List.mem_cons_of_mem g0 hx)) g hg2
  -- the induction carries the nonemptiness hypothesis through the goal

theorem foldl_addToGroups_sndNe (kws : List String) :
    ∀ gs, (∀ g ∈ gs, g.2 ≠ []) → ∀ g ∈ List.foldl addToGroups gs kws, g.2 ≠ [] := by
  induction kws with
  | nil => intro gs h; simpa using h
  | cons k t ih =>
    intro gs h
    rw [List.foldl_cons]
    exact ih (addToGroups gs k) (addToGroups_sndNe gs k h)

theorem buildGroups_sndNe (kws : List String) : ∀ g ∈ buildGroups kws, g.2 ≠ [] :=
  foldl_addToGroups_sndNe kws [] (fun g hg => absurd hg (List.not_mem_nil g))

theorem groupsJoin_cons (g : String × List String) (gs : List (String × List String)) :
    groupsJoin (g :: gs) = g.2 ++ groupsJoin gs := by
  rw [groupsJoin, groupsJoin, List.map_cons, List.flatten_cons]

theorem addToGroups_join_perm (gs : List (String × List String)) (kw : String) :
    (groupsJoin (addToGroups gs kw)).Perm (kw :: groupsJoin gs) := by
  induction gs with
  | nil => exact List.Perm.refl _
  | cons g gs ih =>
    rw [addToGroups]
    by_cases hb : kwMatch (normalize_keyword kw).toList (normalize_keyword g.1).toList = true
    · rw [if_pos hb, groupsJoin_cons, groupsJoin_cons]
      have h1 : (g.2 ++ [kw]) ++ groupsJoin gs = g.2 ++ kw :: groupsJoin gs := by
        rw [List.append_assoc]
        rfl
      rw [h1]
      exact List.perm_middle
    · rw [if_neg hb, groupsJoin_cons, groupsJoin_cons]
      exact (List.Perm.append_left g.2 ih).trans List.perm_middle
  -- in the matched case the keyword joins the first matching group, in the
  -- unmatched case it moves past the head group; both are middle insertions

theorem buildGroups_join_perm_aux (kws : List String) :
    ∀ gs, (groupsJoin (List.foldl addToGroups gs kws)).Perm (groupsJoin gs ++ kws) := by
  induction kws with
  | nil => intro gs; simp
  | cons k t ih =>
    intro gs
    rw [List.foldl_cons]
    refine (ih (addToGroups gs k)).trans ?_
    refine ((addToGroups_join_perm gs k).append_right t).trans ?_
    exact List.perm_middle.symm

theorem buildGroups_join_perm (kws : List String) :
    (groupsJoin (buildGroups kws)).Perm kws := by
  have h := buildGroups_join_perm_aux kws []
  simpa [groupsJoin] using h

theorem addToGroups_no_match (gs : List (String × List String)) (kw : String)
    (h : ∀ g ∈ gs, kwMatch (normalize_keyword kw).toList (normalize_keyword g.1).toList = false) :
    addToGroups gs kw = gs ++ [(kw, [kw])] := by
  induction gs with
  | nil => rfl
  | cons g gs ih =>
    rw [addToGroups, h g (List.mem_cons_self g gs), if_neg Bool.false_ne_true,
      ih (fun x hx => h x (List.mem_cons_of_mem g hx)), List.cons_append]

theorem addToGroups_first_match (gs1 : List (String × List String))
    (g : String × List String) (gs2 : List (String × List String)) (kw : String)
    (h1 : ∀ x ∈ gs1, kwMatch (normalize_keyword kw).toList (normalize_keyword x.1).toList = false)
    (h2 : kwMatch (normalize_keyword kw).toList (normalize_keyword g.1).toList = true) :
    addToGroups (gs1 ++ g :: gs2) kw = gs1 ++ (g.1, g.2 ++ [kw]) :: gs2 := by
  induction gs1 with
  | nil =>
    rw [List.nil_append, addToGroups, h2, if_pos rfl, List.nil_append]
  | cons x t ih =>
    rw [List.cons_append, addToGroups, h1 x (List.mem_cons_self x t), if_neg Bool.false_ne_true,
      ih (fun z hz => h1 z (List.mem_cons_of_mem x hz)), List.cons_append]

/-- C5: `group_similar_keywords` on the spec's example yields exactly the
two representatives `"AI투자 전략"` and `"완전다른주제"`; every keyword is
assigned to exactly one group (the concatenation of the groups is a
permutation of the input); each group contributes one representative — a
member of maximal length, and the first-encountered one on ties; the
keyword joins the first existing group whose key matches (substring of
normalised forms, or ≥ 2 shared distinct characters with both normalised
lengths ≥ 3), with no reassignment, and opens a new group when none
matches. -/
theorem C5_group_similar_keywords_spec :
    group_similar_keywords ["AI 투자", "AI투자 전략", "완전다른주제"] =
      ["AI투자 전략", "완전다른주제"] ∧
    (∀ kws, (groupsJoin (buildGroups kws)).Perm kws) ∧
    (∀ kws g, g ∈ buildGroups kws →
        maxByLen g.2 ∈ g.2 ∧
        (∀ x ∈ g.2, x.length ≤ (maxByLen g.2).length) ∧
        ∃ pre post, g.2 = pre ++ maxByLen g.2 :: post ∧
          ∀ x ∈ pre, x.length < (maxByLen g.2).length) ∧
    (∀ kws, kws ≠ [] →
        (group_similar_keywords kws).length = (buildGroups kws).length) ∧
    (∀ gs kw,
        (∀ g ∈ gs,
          kwMatch (normalize_keyword kw).toList (normalize_keyword g.1).toList = false) →
        addToGroups gs kw = gs ++ [(kw, [kw])]) ∧
    (∀ gs1 g gs2 kw,
        (∀ x ∈ gs1,
          kwMatch (normalize_keyword kw).toList (normalize_keyword x.1).toList = false) →
        kwMatch (normalize_keyword kw).toList (normalize_keyword g.1).toList = true →
        addToGroups (gs1 ++ g :: gs2) kw = gs1 ++ (g.1, g.2 ++ [kw]) :: gs2) := by
  refine ⟨by decide, buildGroups_join_perm, fun kws g hg => ?_, fun kws h => ?_,
          addToGroups_no_match, addToGroups_first_match⟩
  · have hne : g.2 ≠ [] := buildGroups_sndNe kws g hg
    exact ⟨maxByLen_mem g.2 hne, maxByLen_le g.2, maxByLen_first g.2 hne⟩
  · rw [group_similar_keywords, if_neg (by simpa using h), List.length_map]

theorem C5_witness :
    ("완전다른주제", ["완전다른주제"]) ∈ buildGroups ["완전다른주제"] ∧
    maxByLen ("완전다른주제", ["완전다른주제"]).2 ∈ ("완전다른주제", ["완전다른주제"]).2 :=
  ⟨by decide,
   (C5_group_similar_keywords_spec.2.2.1 ["완전다른주제"] ("완전다른주제", ["완전다른주제"])
      (by decide)).1⟩

/-- C10: for every raw candidate list and date, the list returned by
`process_and_deduplicate_keywords` contains no duplicate strings and is
sorted ascending in the code-point lexicographic string order, so the
downstream processing order is deterministic. -/
theorem C10_processed_keywords_nodup_sorted :
    ∀ raw_keywords today,
      (process_and_deduplicate_keywords raw_keywords today).Nodup ∧
      List.Sorted strLeProp (process_and_deduplicate_keywords raw_keywords today) := by
  intro raw today
  simp only [process_and_deduplicate_keywords, sortStrings]
  constructor
  · exact (List.perm_insertionSort strLeProp _).symm.nodup (List.nodup_dedup _)
  · exact List.sorted_insertionSort strLeProp _

theorem C3_amended_witness :
    (keywordLoopRun (fun _ => Outcome.ok) ["키워드A", "키워드B"]).1 = ["키워드A", "키워드B"] :=
  C3_amended_exception_aborts_loop.1 (fun _ => Outcome.ok) ["키워드A", "키워드B"]
    (by intro kw _ h; exact Outcome.noConfusion h)

end BlogTrend
